import Mathlib

/-!
Verification development for the `ContractService` of the
evm-source-verification repository (`src/services/contract.service.ts`).

The service is embedded shallowly:

* `ContractService` carries the four configuration strings of the class
  (`dirname`, `configBasename`, `inputBasename`, `metadataBasename`).
* `ContractService.matchPath` embeds `ContractService.match`, which applies
  the regular expression
  `^(dirname\/([0-9]+)\/(0x[a-f0-9]{40}))(\/.*|$)` to the input string.
  JavaScript regular-expression semantics are modelled exactly: the
  chain-id group accepts decimal digits only, the address group accepts
  exactly 40 lowercase hex digits after `0x`, and `.` does not match the
  line terminators `\n`, `\r`, U+2028, U+2029.
* The filesystem is modelled as a mapping from path strings to optional
  file contents (for file reads/writes) or optional entry lists (for
  directory listings); `fs.promises.readFile` rejecting with ENOENT is
  the `none` case.  JSON parsing and JSON rendering are opaque parameters,
  since `JSON.parse`/`writeJsonFile` are external to the analysed file.
* Chain ids are modelled as `Nat`; `Number.prototype.toString` is
  `toString : Nat → String` (JavaScript float precision of very large
  chain ids is not modelled).
-/

/-- Line terminators of JavaScript regular expressions: `.` matches any
character except these. -/
def isLineTerm (c : Char) : Bool :=
  c = '\n' || c = '\r' || c = '\u2028' || c = '\u2029'

/-- Lowercase hexadecimal digit, as accepted by the `[a-f0-9]` class of the
match regex. -/
def isHexLower (c : Char) : Bool :=
  c.isDigit || ('a' ≤ c && c ≤ 'f')

/-- Value of a string of decimal digits, as computed by
`parseInt(s, 10)` on an all-digit string. -/
def parseDec (cs : List Char) : Nat :=
  cs.foldl (fun n c => n * 10 + (c.toNat - '0'.toNat)) 0

/-- Strip the literal character sequence `p` from the front of `s`;
`none` when `s` does not start with `p`.  Embeds matching a literal part
of the anchored regex. -/
def stripLit : List Char → List Char → Option (List Char)
  | [], s => some s
  | _ :: _, [] => none
  | p :: ps, c :: cs => if c = p then stripLit ps cs else none

/-- Read exactly `n` lowercase-hex characters (the `[a-f0-9]{n}` regex
part), returning them and the remainder. -/
def readHexN : Nat → List Char → Option (List Char × List Char)
  | 0, s => some ([], s)
  | _ + 1, [] => none
  | n + 1, c :: cs =>
    if isHexLower c then (readHexN n cs).map (fun p => (c :: p.1, p.2))
    else none

/-- The `([0-9]+)\/` regex part: a nonempty run of decimal digits followed
by a slash; returns the digits and the remainder after the slash. -/
def parseChainSeg (s : List Char) : Option (List Char × List Char) :=
  match s.dropWhile Char.isDigit with
  | [] => none
  | c :: r =>
    if c = '/' then
      if (s.takeWhile Char.isDigit).isEmpty then none
      else some (s.takeWhile Char.isDigit, r)
    else none

/-- The `(0x[a-f0-9]{40})` regex part: returns the full 42-character
address (including `0x`) and the remainder. -/
def parseAddr (s : List Char) : Option (List Char × List Char) :=
  match stripLit ['0', 'x'] s with
  | none => none
  | some s2 =>
    (readHexN 40 s2).map (fun p => ('0' :: 'x' :: p.1, p.2))

/-- The final `(\/.*|$)` regex group: succeeds on the empty remainder with
an empty capture, or on a remainder starting with `/` capturing the slash
and the following characters up to (excluding) the first line terminator
(JavaScript `.` does not match line terminators). -/
def parseTail : List Char → Option (List Char)
  | [] => some []
  | c :: t =>
    if c = '/' then some (c :: t.takeWhile (fun x => !(isLineTerm x)))
    else none

/-- Result of `ContractService.match`: the `ContractFileMatch` record of
`src/types`. -/
structure ContractFileMatch where
  original : String
  dir : String
  chainId : Nat
  address : String
  subpath : String
deriving DecidableEq, Repr

/-- Configuration state of a `ContractService` instance (the four readonly
fields set by the constructor). -/
structure ContractService where
  dirname : String
  configBasename : String
  inputBasename : String
  metadataBasename : String
deriving DecidableEq, Repr

/-- The `ContractService.DEFAULTS` applied by the constructor when no
options are given. -/
def ContractService.defaults : ContractService :=
  { dirname := "contracts"
  , configBasename := "configs.json"
  , inputBasename := "input.json"
  , metadataBasename := "metadata.json" }

/-- Embeds `ContractService.match`: apply
`^(dirname\/([0-9]+)\/(0x[a-f0-9]{40}))(\/.*|$)` to `str`; on failure
return `none`, on success build the `ContractFileMatch` with `chainId`
parsed from the digit group (the `0x` branch of the source's `parseInt`
dispatch is unreachable, because the group `[0-9]+` never captures a
string starting `0x`).  The interpolated `dirname` is modelled as a
literal character sequence; this coincides with the JavaScript behavior
for every dirname free of regex metacharacters, in particular the
default `contracts`. -/
def ContractService.matchPath (svc : ContractService) (str : String) :
    Option ContractFileMatch :=
  match stripLit (svc.dirname.data ++ ['/']) str.data with
  | none => none
  | some s1 =>
    match parseChainSeg s1 with
    | none => none
    | some (cid, s2) =>
      match parseAddr s2 with
      | none => none
      | some (addr, s3) =>
        match parseTail s3 with
        | none => none
        | some sub =>
          some { original := str
               , dir := String.mk (svc.dirname.data ++ '/' :: cid ++ '/' :: addr)
               , chainId := parseDec cid
               , address := String.mk addr
               , subpath := String.mk sub }

/-- Models `path.join(a, b)` for the plain relative segments the service
joins (nonempty, no separators, no dot segments): concatenation with a
single slash. -/
def pathJoin (a b : String) : String :=
  a ++ "/" ++ b

/-- The `HasChainId` identity subset of `src/types`. -/
structure HasChainId where
  chainId : Nat
deriving DecidableEq, Repr

/-- The `ContractIdentity` of `src/types`: chain id and address. -/
structure ContractIdentity where
  chainId : Nat
  address : String
deriving DecidableEq, Repr

/-- Embeds `ContractService.getChainDirname`:
`path.join(this.dirname, identity.chainId.toString())`. -/
def ContractService.getChainDirname (svc : ContractService)
    (identity : HasChainId) : String :=
  pathJoin svc.dirname (toString identity.chainId)

/-- Embeds `ContractService.getAddressDirname`:
`path.join(this.getChainDirname({chainId}), options.address)` — note the
address is used verbatim, with no case normalization. -/
def ContractService.getAddressDirname (svc : ContractService)
    (options : ContractIdentity) : String :=
  pathJoin (svc.getChainDirname { chainId := options.chainId }) options.address

/-- Embeds `ContractService.getConfigFilename`. -/
def ContractService.getConfigFilename (svc : ContractService)
    (identity : ContractIdentity) : String :=
  pathJoin (svc.getAddressDirname identity) svc.configBasename

/-- Embeds `ContractService.getInputFilename`. -/
def ContractService.getInputFilename (svc : ContractService)
    (identity : ContractIdentity) : String :=
  pathJoin (svc.getAddressDirname identity) svc.inputBasename

/-- Embeds `ContractService.getMetadataFilename`. -/
def ContractService.getMetadataFilename (svc : ContractService)
    (identity : ContractIdentity) : String :=
  pathJoin (svc.getAddressDirname identity) svc.metadataBasename

example :
    ContractService.defaults.matchPath
      "contracts/1/0xaaaaaaaaaaaaaaaaaaaaaaaaaaaaaaaaaaaaaaaa/sub/path" =
    some { original := "contracts/1/0xaaaaaaaaaaaaaaaaaaaaaaaaaaaaaaaaaaaaaaaa/sub/path"
         , dir := "contracts/1/0xaaaaaaaaaaaaaaaaaaaaaaaaaaaaaaaaaaaaaaaa"
         , chainId := 1
         , address := "0xaaaaaaaaaaaaaaaaaaaaaaaaaaaaaaaaaaaaaaaa"
         , subpath := "/sub/path" } := by decide

example :
    ContractService.defaults.matchPath
      "contracts/0x1/0xaaaaaaaaaaaaaaaaaaaaaaaaaaaaaaaaaaaaaaaa" = none := by
  decide

example :
    ContractService.defaults.matchPath
      "contracts/1/0xAAAAAAAAAAAAAAAAAAAAAAAAAAAAAAAAAAAAAAAA" = none := by
  decide

theorem stripLit_eq_some : ∀ {p s r : List Char}, stripLit p s = some r → s = p ++ r := by
  intro p
  induction p with
  | nil =>
    intro s r h
    simp only [stripLit, Option.some.injEq] at h
    simp [h]
  | cons a ps ih =>
    intro s r h
    cases s with
    | nil => simp [stripLit] at h
    | cons c cs =>
      simp only [stripLit] at h
      by_cases hc : c = a
      · rw [if_pos hc] at h
        simp [hc, ih h]
      · rw [if_neg hc] at h
        cases h

theorem readHexN_eq_some :
    ∀ {n : Nat} {s h r : List Char}, readHexN n s = some (h, r) →
      s = h ++ r ∧ h.length = n ∧ ∀ c ∈ h, isHexLower c = true := by
  intro n
  induction n with
  | zero =>
    intro s h r hx
    simp only [readHexN, Option.some.injEq, Prod.mk.injEq] at hx
    simp [hx.1.symm, hx.2.symm]
  | succ m ih =>
    intro s h r hx
    cases s with
    | nil => simp [readHexN] at hx
    | cons c cs =>
      simp only [readHexN] at hx
      by_cases hc : isHexLower c = true
      · rw [if_pos hc] at hx
        cases hrec : readHexN m cs with
        | none => rw [hrec] at hx; cases hx
        | some p =>
          rw [hrec] at hx
          simp only [Option.map_some', Option.some.injEq, Prod.mk.injEq] at hx
          obtain ⟨h1, h2⟩ := hx
          obtain ⟨hs, hl, hhex⟩ := ih (by rw [hrec])
          subst h1 h2
          refine ⟨by simp [hs], by simp [hl], ?_⟩
          intro x hxmem
          rcases List.mem_cons.mp hxmem with h | h
          · subst h; exact hc
          · exact hhex x h
      · rw [if_neg hc] at hx
        cases hx

theorem parseChainSeg_eq_some {s cid r : List Char}
    (h : parseChainSeg s = some (cid, r)) :
    s = cid ++ '/' :: r ∧ cid ≠ [] ∧ ∀ c ∈ cid, c.isDigit = true := by
  unfold parseChainSeg at h
  split at h
  · cases h
  · rename_i c r2 hd
    split at h
    · rename_i hc
      split at h
      · cases h
      · rename_i he
        simp only [Option.some.injEq, Prod.mk.injEq] at h
        obtain ⟨hcid, hr⟩ := h
        subst hcid
        subst hr
        have hsplit := List.takeWhile_append_dropWhile Char.isDigit s
        rw [hd, hc] at hsplit
        refine ⟨hsplit.symm, ?_, ?_⟩
        · intro hnil
          exact he (by rw [hnil]; rfl)
        · intro x hx
          exact List.mem_takeWhile_imp hx
    · cases h

theorem parseAddr_eq_some {s a r : List Char}
    (h : parseAddr s = some (a, r)) :
    ∃ h40, a = '0' :: 'x' :: h40 ∧ s = a ++ r ∧ h40.length = 40 ∧
      ∀ c ∈ h40, isHexLower c = true := by
  unfold parseAddr at h
  split at h
  · cases h
  · rename_i s2 hstrip
    cases hrec : readHexN 40 s2 with
    | none => rw [hrec] at h; cases h
    | some p =>
      rw [hrec] at h
      simp only [Option.map_some', Option.some.injEq, Prod.mk.injEq] at h
      obtain ⟨ha, hr⟩ := h
      obtain ⟨hs2, hlen, hhex⟩ := readHexN_eq_some (by rw [hrec])
      subst ha
      subst hr
      refine ⟨p.1, rfl, ?_, hlen, hhex⟩
      have := stripLit_eq_some hstrip
      simp [this, hs2]

theorem parseTail_eq_some {s sub : List Char}
    (h : parseTail s = some sub) :
    (s = [] ∨ ∃ t, s = '/' :: t) ∧
      sub = s.takeWhile (fun x => !(isLineTerm x)) := by
  cases s with
  | nil =>
    simp only [parseTail, Option.some.injEq] at h
    subst h
    exact ⟨Or.inl rfl, rfl⟩
  | cons c t =>
    simp only [parseTail] at h
    split at h
    · rename_i hc
      subst hc
      simp only [Option.some.injEq] at h
      subst h
      refine ⟨Or.inr ⟨t, rfl⟩, ?_⟩
      have hslash : (!(isLineTerm '/')) = true := by decide
      simp [List.takeWhile, hslash]
    · cases h

/-- Full characterization of a successful `match`: the input decomposes as
`dirname / digits / 0x(40 hex) rest` with `rest` empty or slash-led, and
every field of the returned record is determined by that decomposition
(`subpath` stops at the first line terminator because `.` does not match
line terminators in JavaScript). -/
theorem matchPath_eq_some {svc : ContractService} {str : String}
    {r : ContractFileMatch} (h : svc.matchPath str = some r) :
    ∃ cid h40 s3 : List Char,
      str.data = svc.dirname.data ++ '/' :: cid ++ '/' :: ('0' :: 'x' :: h40) ++ s3 ∧
      cid ≠ [] ∧ (∀ c ∈ cid, c.isDigit = true) ∧
      h40.length = 40 ∧ (∀ c ∈ h40, isHexLower c = true) ∧
      (s3 = [] ∨ ∃ t, s3 = '/' :: t) ∧
      r.original = str ∧
      r.dir.data = svc.dirname.data ++ '/' :: cid ++ '/' :: ('0' :: 'x' :: h40) ∧
      r.chainId = parseDec cid ∧
      r.address.data = '0' :: 'x' :: h40 ∧
      r.subpath.data = s3.takeWhile (fun x => !(isLineTerm x)) := by
  unfold ContractService.matchPath at h
  split at h
  · cases h
  rename_i s1 hstrip
  split at h
  · cases h
  rename_i cid s2 hseg
  split at h
  · cases h
  rename_i addr s3 haddr
  split at h
  · cases h
  rename_i sub htail
  simp only [Option.some.injEq] at h
  subst h
  have hs1 := stripLit_eq_some hstrip
  obtain ⟨hseq, hcne, hcdig⟩ := parseChainSeg_eq_some hseg
  obtain ⟨h40, ha, haeq, hlen, hhex⟩ := parseAddr_eq_some haddr
  obtain ⟨hs3shape, hsub⟩ := parseTail_eq_some htail
  subst ha
  refine ⟨cid, h40, s3, ?_, hcne, hcdig, hlen, hhex, hs3shape, rfl, rfl, rfl, rfl, hsub⟩
  rw [hs1, hseq, haeq]
  simp

/-- Hexadecimal digit of either case, for the spec's `0x`-prefixed
hexadecimal chain-id segments. -/
def isHexAnyCase (c : Char) : Bool :=
  c.isDigit || ('a' ≤ c && c ≤ 'f') || ('A' ≤ c && c ≤ 'F')

/-- A chain-id segment as the spec words it: "either a decimal or
`0x`-prefixed hexadecimal integer". -/
def chainIdSegment (cid : List Char) : Prop :=
  (cid ≠ [] ∧ ∀ c ∈ cid, c.isDigit = true) ∨
  (∃ ds, cid = '0' :: 'x' :: ds ∧ ds ≠ [] ∧ ∀ c ∈ ds, isHexAnyCase c = true)

/-- The accepted path shape, stated from the spec's words:
`<rootDirName>/<chainIdSegment>/<addressSegment>[/<anything>]`, where the
address segment is exactly `0x` followed by 40 lowercase hex digits. -/
def acceptedShape (dirname s : String) : Prop :=
  ∃ cid h40 rest : List Char,
    s.data = dirname.data ++ '/' :: cid ++ '/' :: ('0' :: 'x' :: h40) ++ rest ∧
    chainIdSegment cid ∧
    h40.length = 40 ∧ (∀ c ∈ h40, isHexLower c = true) ∧
    (rest = [] ∨ ∃ t, rest = '/' :: t)

/-- Errors surfaced by the store operations: `notFound` models the
filesystem ENOENT rejection (the spec's `NotFoundError`), `parseError`
the `JSON.parse` SyntaxError (the spec's `ParseError`). -/
inductive StoreError where
  | notFound
  | parseError
deriving DecidableEq, Repr

/-- A file store: maps a path to the file's contents when the file
exists.  Models the key-value view of the on-disk store; `fabs` (making
a path absolute) is modelled as the identity on keys. -/
abbrev FileStore := String → Option String

/-- A directory store: maps a directory path to its entry names when the
directory exists (`fs.promises.readdir`; `none` models the ENOENT
rejection). -/
abbrev DirStore := String → Option (List String)

/-- Embeds `ContractService.getConfig`: `readFile` the config filename
(ENOENT surfaces as `notFound`), then `JSON.parse` the contents (a
SyntaxError surfaces as `parseError`).  The JSON parser is an opaque
parameter since `JSON.parse` is external to the analysed file. -/
def ContractService.getConfig {α : Type} (svc : ContractService)
    (fsys : FileStore) (parse : String → Option α)
    (identity : ContractIdentity) : Except StoreError α :=
  match fsys (svc.getConfigFilename identity) with
  | none => .error .notFound
  | some content =>
    match parse content with
    | none => .error .parseError
    | some config => .ok config

/-- Embeds `ContractService.saveMetadata` over a file store.  Modelled
from the spec where it leaves the analysed file: `writeJsonFile`
(src/libs/utils, not under src/) "writes metadata as pretty-printed
JSON; overwrites any prior metadata for the same identity" — a complete
overwrite at the metadata filename, with an opaque rendering function
for the pretty-printed JSON text. -/
def ContractService.saveMetadata {μ : Type} (svc : ContractService)
    (fsys : FileStore) (identity : ContractIdentity) (metadata : μ)
    (render : μ → String) : FileStore :=
  fun p =>
    if p = svc.getMetadataFilename identity then some (render metadata)
    else fsys p

/-- Embeds `ContractService.hasMetadata`.  Modelled from the spec where
it leaves the analysed file: `fexists` (src/libs/utils, not under src/)
is an existence check of the metadata filename. -/
def ContractService.hasMetadata (svc : ContractService) (fsys : FileStore)
    (identity : ContractIdentity) : Bool :=
  (fsys (svc.getMetadataFilename identity)).isSome

/-- JavaScript `Map.prototype.set` on an insertion-ordered association
list: update the value in place when the key is present, append the new
entry otherwise. -/
def mapSet {κ α : Type} [DecidableEq κ] (k : κ) (v : α) :
    List (κ × α) → List (κ × α)
  | [] => [(k, v)]
  | (k1, v1) :: rest =>
    if k = k1 then (k, v) :: rest else (k1, v1) :: mapSet k v rest

/-- JavaScript `Map.prototype.get` on an insertion-ordered association
list. -/
def mapGet {κ α : Type} [DecidableEq κ] (k : κ) :
    List (κ × α) → Option α
  | [] => none
  | (k1, v1) :: rest => if k = k1 then some v1 else mapGet k rest

/-- One grouping step of `matchContractFiles`: insert a resolved
`ContractFileMatch` into the chainId -> (address -> match) map. -/
def insertMatch (acc : List (Nat × List (String × ContractFileMatch)))
    (r : ContractFileMatch) : List (Nat × List (String × ContractFileMatch)) :=
  mapSet r.chainId (mapSet r.address r ((mapGet r.chainId acc).getD [])) acc

/-- Modelled from the spec: `matchContractFiles`
(src/libs/contracts.match, not under src/) resolves each path through
the service's `match`, silently skipping paths that fail to resolve, and
groups the results as chainId -> (address -> ContractFileMatch)
insertion-ordered maps. -/
def matchContractFiles (paths : List String) (svc : ContractService) :
    List (Nat × List (String × ContractFileMatch)) :=
  paths.foldl (fun acc p => (svc.matchPath p).elim acc (insertMatch acc)) []

/-- Embeds `ContractService.getChainContracts`: `readdir` the chain
directory (ENOENT surfaces as `notFound`), join each entry onto the
chain directory, resolve through `matchContractFiles`, and return the
contracts map of the group for this chain id (an empty map when the
group is absent, matching `matches.get(chainId)?.contracts ?? new
Map()`). -/
def ContractService.getChainContracts (svc : ContractService)
    (dfs : DirStore) (identity : HasChainId) :
    Except StoreError (List (String × ContractFileMatch)) :=
  match dfs (svc.getChainDirname identity) with
  | none => .error .notFound
  | some names =>
    .ok ((mapGet identity.chainId
      (matchContractFiles
        (names.map (fun n => pathJoin (svc.getChainDirname identity) n))
        svc)).getD [])

/-- The mapping address -> ContractFileMatch of one chain directory as
the spec describes it: resolve each joined entry through `match` and
keep, keyed by address, exactly the matches carrying this chain id. -/
def chainRestriction (svc : ContractService) (chainId : Nat)
    (dirnames : List String) : List (String × ContractFileMatch) :=
  ((dirnames.filterMap svc.matchPath).filter
      (fun r => r.chainId = chainId)).foldl
    (fun m r => mapSet r.address r m) []

theorem mapGet_mapSet_self {κ α : Type} [DecidableEq κ] (k : κ) (v : α) :
    ∀ m : List (κ × α), mapGet k (mapSet k v m) = some v := by
  intro m
  induction m with
  | nil => simp [mapSet, mapGet]
  | cons kv rest ih =>
    obtain ⟨k1, v1⟩ := kv
    by_cases hk : k = k1
    · simp [mapSet, mapGet, hk]
    · simp [mapSet, mapGet, hk, ih]

theorem mapGet_mapSet_ne {κ α : Type} [DecidableEq κ] {k k1 : κ} (v : α)
    (hk : k ≠ k1) :
    ∀ m : List (κ × α), mapGet k (mapSet k1 v m) = mapGet k m := by
  intro m
  induction m with
  | nil => simp [mapSet, mapGet, hk]
  | cons kv rest ih =>
    obtain ⟨k2, v2⟩ := kv
    by_cases hk2 : k1 = k2
    · subst hk2
      simp [mapSet, mapGet, hk]
    · by_cases hk3 : k = k2 <;> simp [mapSet, mapGet, hk2, hk3, ih]

theorem foldl_optionElim {α β γ : Type} (f : α → Option β) (g : γ → β → γ) :
    ∀ (paths : List α) (init : γ),
      paths.foldl (fun acc p => (f p).elim acc (g acc)) init =
        (paths.filterMap f).foldl g init := by
  intro paths
  induction paths with
  | nil => intro init; rfl
  | cons p rest ih =>
    intro init
    cases hp : f p with
    | none => simp [List.filterMap_cons, hp, ih]
    | some r => simp [List.filterMap_cons, hp, ih]

theorem mapGet_groupFold (c : Nat) :
    ∀ (rs : List ContractFileMatch) (acc : List (Nat × List (String × ContractFileMatch))),
      (mapGet c (rs.foldl insertMatch acc)).getD [] =
        (rs.filter (fun r => r.chainId = c)).foldl
          (fun m r => mapSet r.address r m) ((mapGet c acc).getD []) := by
  intro rs
  induction rs with
  | nil => intro acc; rfl
  | cons r rest ih =>
    intro acc
    by_cases hc : r.chainId = c
    · rw [List.foldl_cons, ih]
      unfold insertMatch
      have hget :
          (mapGet c (mapSet r.chainId
            (mapSet r.address r ((mapGet r.chainId acc).getD [])) acc)).getD []
          = mapSet r.address r ((mapGet c acc).getD []) := by
        rw [hc, mapGet_mapSet_self]
        simp [hc]
      rw [hget]
      have hfil : (r :: rest).filter (fun r => decide (r.chainId = c)) =
          r :: rest.filter (fun r => decide (r.chainId = c)) := by
        simp [List.filter_cons, hc]
      rw [hfil, List.foldl_cons]
    · rw [List.foldl_cons, ih]
      unfold insertMatch
      have hget :
          (mapGet c (mapSet r.chainId
            (mapSet r.address r ((mapGet r.chainId acc).getD [])) acc)).getD []
          = (mapGet c acc).getD [] := by
        rw [mapGet_mapSet_ne _ (fun h => hc h.symm)]
      rw [hget]
      have hfil : (r :: rest).filter (fun r => decide (r.chainId = c)) =
          rest.filter (fun r => decide (r.chainId = c)) := by
        simp [List.filter_cons, hc]
      rw [hfil]

theorem pathJoin_right_inj {a x y : String} (h : pathJoin a x = pathJoin a y) :
    x = y := by
  have hd := congrArg String.data h
  simp only [pathJoin, String.data_append] at hd
  exact String.ext (List.append_cancel_left hd)

theorem pathJoin_left_inj {x y a : String} (h : pathJoin x a = pathJoin y a) :
    x = y := by
  have hd := congrArg String.data h
  simp only [pathJoin, String.data_append] at hd
  exact String.ext (List.append_cancel_right (List.append_cancel_right hd))

/-- C1: the spec states that a `0x`-prefixed hexadecimal chain-id segment
resolves to its hexadecimal value, but the match regex
`^(dirname\/([0-9]+)\/(0x[a-f0-9]{40}))(\/.*|$)` accepts only decimal
digits in the chain-id group, so such a path returns `null` — the
`parseInt(rchainId, 16)` branch of the source is unreachable.  A plain
decimal segment does resolve to its decimal value. -/
theorem matchPath_hex_chainid_rejected :
    ContractService.defaults.matchPath
        "contracts/0x1/0xaaaaaaaaaaaaaaaaaaaaaaaaaaaaaaaaaaaaaaaa" = none ∧
    ContractService.defaults.matchPath
        "contracts/255/0xaaaaaaaaaaaaaaaaaaaaaaaaaaaaaaaaaaaaaaaa" =
      some { original := "contracts/255/0xaaaaaaaaaaaaaaaaaaaaaaaaaaaaaaaaaaaaaaaa"
           , dir := "contracts/255/0xaaaaaaaaaaaaaaaaaaaaaaaaaaaaaaaaaaaaaaaa"
           , chainId := 255
           , address := "0xaaaaaaaaaaaaaaaaaaaaaaaaaaaaaaaaaaaaaaaa"
           , subpath := "" } := by
  decide

/-- C2 counterexample: two identities differing only in the letter case of
their address are NOT treated as the same contract — they yield distinct
address directories and distinct metadata filenames, because the service
never lowercases the address. -/
theorem address_case_not_normalized_cex :
    ContractService.defaults.getAddressDirname
        { chainId := 1, address := "0xaaaaaaaaaaaaaaaaaaaaaaaaaaaaaaaaaaaaaaaa" } ≠
      ContractService.defaults.getAddressDirname
        { chainId := 1, address := "0xAaaaaaaaaaaaaaaaaaaaaaaaaaaaaaaaaaaaaaaa" } ∧
    ContractService.defaults.getMetadataFilename
        { chainId := 1, address := "0xaaaaaaaaaaaaaaaaaaaaaaaaaaaaaaaaaaaaaaaa" } ≠
      ContractService.defaults.getMetadataFilename
        { chainId := 1, address := "0xAaaaaaaaaaaaaaaaaaaaaaaaaaaaaaaaaaaaaaaa" } := by
  decide

/-- C2 (amended): the persistence-key helpers use the address string
verbatim (no case normalization), so any two identities with the same
chain id but different address strings — in particular two differing
only in letter case — derive distinct address directories and distinct
metadata filenames; callers must normalize case upstream. -/
theorem address_case_distinct_keys (svc : ContractService) (c : Nat)
    (a b : String) (h : a ≠ b) :
    svc.getAddressDirname { chainId := c, address := a } ≠
      svc.getAddressDirname { chainId := c, address := b } ∧
    svc.getMetadataFilename { chainId := c, address := a } ≠
      svc.getMetadataFilename { chainId := c, address := b } := by
  constructor
  · intro hEq
    exact h (pathJoin_right_inj hEq)
  · intro hEq
    exact h (pathJoin_right_inj (pathJoin_left_inj hEq))

theorem address_case_distinct_keys_witness :
    "0xaaaaaaaaaaaaaaaaaaaaaaaaaaaaaaaaaaaaaaaa" ≠
        "0xAaaaaaaaaaaaaaaaaaaaaaaaaaaaaaaaaaaaaaaa" ∧
      (ContractService.defaults.getAddressDirname
          { chainId := 1, address := "0xaaaaaaaaaaaaaaaaaaaaaaaaaaaaaaaaaaaaaaaa" } ≠
        ContractService.defaults.getAddressDirname
          { chainId := 1, address := "0xAaaaaaaaaaaaaaaaaaaaaaaaaaaaaaaaaaaaaaaa" } ∧
      ContractService.defaults.getMetadataFilename
          { chainId := 1, address := "0xaaaaaaaaaaaaaaaaaaaaaaaaaaaaaaaaaaaaaaaa" } ≠
        ContractService.defaults.getMetadataFilename
          { chainId := 1, address := "0xAaaaaaaaaaaaaaaaaaaaaaaaaaaaaaaaaaaaaaaa" }) :=
  ⟨by decide,
   address_case_distinct_keys ContractService.defaults 1
     "0xaaaaaaaaaaaaaaaaaaaaaaaaaaaaaaaaaaaaaaaa"
     "0xAaaaaaaaaaaaaaaaaaaaaaaaaaaaaaaaaaaaaaaa" (by decide)⟩

/-- C3: `getConfig` fails with `NotFoundError` when the config artifact is
absent, fails with `ParseError` when its content is not valid JSON text,
and returns the parsed config when the artifact exists and parses. -/
theorem getConfig_spec {α : Type} (svc : ContractService) (fsys : FileStore)
    (parse : String → Option α) (identity : ContractIdentity) :
    (fsys (svc.getConfigFilename identity) = none →
      svc.getConfig fsys parse identity = .error .notFound) ∧
    (∀ content, fsys (svc.getConfigFilename identity) = some content →
      parse content = none →
      svc.getConfig fsys parse identity = .error .parseError) ∧
    (∀ content config, fsys (svc.getConfigFilename identity) = some content →
      parse content = some config →
      svc.getConfig fsys parse identity = .ok config) := by
  refine ⟨?_, ?_, ?_⟩
  · intro h
    simp [ContractService.getConfig, h]
  · intro content h1 h2
    simp [ContractService.getConfig, h1, h2]
  · intro content config h1 h2
    simp [ContractService.getConfig, h1, h2]

theorem getConfig_spec_witness :
    ContractService.defaults.getConfig (fun _ => none)
        (fun _ => some (0 : Nat)) { chainId := 1, address := "0xaa" } =
      .error .notFound ∧
    ContractService.defaults.getConfig (fun _ => some "bad")
        (fun _ => (none : Option Nat)) { chainId := 1, address := "0xaa" } =
      .error .parseError ∧
    ContractService.defaults.getConfig (fun _ => some "x")
        (fun _ => some (7 : Nat)) { chainId := 1, address := "0xaa" } =
      .ok 7 :=
  ⟨(getConfig_spec _ _ _ _).1 rfl,
   (getConfig_spec _ _ _ _).2.1 "bad" rfl rfl,
   (getConfig_spec _ _ _ _).2.2 "x" 7 rfl rfl⟩

/-- C5: any input string not matching the accepted shape
`<rootDirName>/<chainIdSegment>/<addressSegment>[/<anything>]` from its
start — in particular any string whose address segment is not exactly
`0x` followed by 40 lowercase hex digits — yields `null`; `matchPath` is
a total function, so no input raises an exception. -/
theorem matchPath_none_of_shape_violation (svc : ContractService)
    (str : String) (h : ¬ acceptedShape svc.dirname str) :
    svc.matchPath str = none := by
  cases hm : svc.matchPath str with
  | none => rfl
  | some r =>
    exfalso
    obtain ⟨cid, h40, s3, hdec, hcne, hcdig, hlen, hhex, hsh, -, -, -, -, -⟩ :=
      matchPath_eq_some hm
    exact h ⟨cid, h40, s3, hdec, Or.inl ⟨hcne, hcdig⟩, hlen, hhex, hsh⟩

theorem matchPath_none_of_shape_violation_witness :
    ¬ acceptedShape "contracts" "nope" ∧
      ContractService.defaults.matchPath "nope" = none := by
  have hns : ¬ acceptedShape "contracts" "nope" := by
    rintro ⟨cid, h40, rest, hdec, -, hlen, -, -⟩
    have hl := congrArg List.length hdec
    have h4 : ("nope".data).length = 4 := rfl
    rw [h4] at hl
    simp only [List.length_append, List.length_cons, hlen] at hl
    omega
  exact ⟨hns,
    matchPath_none_of_shape_violation ContractService.defaults "nope" hns⟩

/-- C4: for a chain-id-only identity, `getChainContracts` fails with
`NotFoundError` when the chain directory does not exist; when it exists,
it returns exactly the address -> ContractFileMatch mapping of that one
chain directory (each joined entry resolved through `match`, restricted
to this chain id). -/
theorem getChainContracts_spec (svc : ContractService) (dfs : DirStore)
    (identity : HasChainId) :
    (dfs (svc.getChainDirname identity) = none →
      svc.getChainContracts dfs identity = .error .notFound) ∧
    (∀ names, dfs (svc.getChainDirname identity) = some names →
      svc.getChainContracts dfs identity =
        .ok (chainRestriction svc identity.chainId
          (names.map (fun n => pathJoin (svc.getChainDirname identity) n)))) := by
  constructor
  · intro h
    simp [ContractService.getChainContracts, h]
  · intro names h
    simp only [ContractService.getChainContracts, h]
    congr 1
    unfold matchContractFiles chainRestriction
    rw [foldl_optionElim svc.matchPath insertMatch, mapGet_groupFold]
    rfl

theorem getChainContracts_spec_witness :
    ContractService.defaults.getChainContracts (fun _ => none)
        { chainId := 1 } = .error .notFound ∧
    ContractService.defaults.getChainContracts
        (fun d => if d = "contracts/1"
          then some ["0xaaaaaaaaaaaaaaaaaaaaaaaaaaaaaaaaaaaaaaaa"] else none)
        { chainId := 1 } =
      .ok (chainRestriction ContractService.defaults 1
        (["0xaaaaaaaaaaaaaaaaaaaaaaaaaaaaaaaaaaaaaaaa"].map
          (fun n => pathJoin
            (ContractService.defaults.getChainDirname { chainId := 1 }) n))) :=
  ⟨(getChainContracts_spec ContractService.defaults (fun _ => none)
      { chainId := 1 }).1 rfl,
   (getChainContracts_spec ContractService.defaults _ { chainId := 1 }).2
     ["0xaaaaaaaaaaaaaaaaaaaaaaaaaaaaaaaaaaaaaaaa"] (by decide)⟩

/-- C6 counterexample: on an input whose part after the address segment
contains a line terminator, `match` succeeds but the returned subpath is
NOT everything after the address segment — the capture group `(\/.*|$)`
stops at the newline because JavaScript `.` does not match line
terminators. -/
theorem matchPath_subpath_newline_cex :
    (ContractService.defaults.matchPath
        "contracts/1/0xaaaaaaaaaaaaaaaaaaaaaaaaaaaaaaaaaaaaaaaa/s\nt").map
        ContractFileMatch.subpath = some "/s" ∧
    ("/s" : String) ≠ "/s\nt" := by
  decide

/-- C6 (amended): on success, the subpath is everything after the address
segment (including its leading slash) up to — but excluding — the first
JavaScript line terminator, and is empty when nothing follows; whenever
the remainder after the address segment contains no line terminator, the
subpath is exactly that remainder. -/
theorem matchPath_subpath_spec (svc : ContractService) (str : String)
    (r : ContractFileMatch) (h : svc.matchPath str = some r) :
    r.subpath.data =
      (str.data.drop r.dir.data.length).takeWhile (fun c => !(isLineTerm c)) ∧
    ((∀ c ∈ str.data.drop r.dir.data.length, isLineTerm c = false) →
      r.subpath.data = str.data.drop r.dir.data.length) := by
  obtain ⟨cid, h40, s3, hdec, -, -, -, -, -, -, hdir, -, -, hsub⟩ :=
    matchPath_eq_some h
  have hstr : str.data = r.dir.data ++ s3 := by
    rw [hdir, hdec]
  have hdrop : str.data.drop r.dir.data.length = s3 := by
    rw [hstr]
    exact List.drop_left _ _
  refine ⟨?_, ?_⟩
  · rw [hdrop]
    exact hsub
  · intro hterm
    rw [hdrop] at hterm ⊢
    rw [hsub]
    exact List.takeWhile_eq_self_iff.mpr (fun x hx => by simp [hterm x hx])

def strXY : String := "contracts/1/0xaaaaaaaaaaaaaaaaaaaaaaaaaaaaaaaaaaaaaaaa/x/y"

def cfmXY : ContractFileMatch :=
  { original := strXY
  , dir := "contracts/1/0xaaaaaaaaaaaaaaaaaaaaaaaaaaaaaaaaaaaaaaaa"
  , chainId := 1
  , address := "0xaaaaaaaaaaaaaaaaaaaaaaaaaaaaaaaaaaaaaaaa"
  , subpath := "/x/y" }

theorem matchPath_subpath_spec_witness :
    cfmXY.subpath.data =
      (strXY.data.drop cfmXY.dir.data.length).takeWhile
        (fun c => !(isLineTerm c)) ∧
    cfmXY.subpath.data = strXY.data.drop cfmXY.dir.data.length :=
  ⟨(matchPath_subpath_spec ContractService.defaults strXY cfmXY (by decide)).1,
   (matchPath_subpath_spec ContractService.defaults strXY cfmXY
      (by decide)).2 (by decide)⟩

/-- C7: saving the same metadata for the same identity twice leaves the
store in the same observable state as saving it once — each save is a
complete overwrite of the one metadata file with identical rendered
content. -/
theorem saveMetadata_idempotent {μ : Type} (svc : ContractService)
    (fsys : FileStore) (identity : ContractIdentity) (metadata : μ)
    (render : μ → String) :
    svc.saveMetadata (svc.saveMetadata fsys identity metadata render)
        identity metadata render =
      svc.saveMetadata fsys identity metadata render := by
  funext p
  unfold ContractService.saveMetadata
  by_cases hp : p = svc.getMetadataFilename identity <;> simp [hp]

/-- C8: `hasMetadata` depends only on which files exist, never on any
file's content (two stores with the same domain agree on it), returns a
boolean, and — taking no store to a new store — leaves every artifact
unchanged. -/
theorem hasMetadata_existence_only (svc : ContractService)
    (f1 f2 : FileStore) (identity : ContractIdentity)
    (h : ∀ p, (f1 p).isSome = (f2 p).isSome) :
    svc.hasMetadata f1 identity = svc.hasMetadata f2 identity := by
  unfold ContractService.hasMetadata
  exact h _

theorem hasMetadata_existence_only_witness :
    ContractService.defaults.hasMetadata (fun _ => some "content-a")
        { chainId := 1, address := "0xaa" } =
      ContractService.defaults.hasMetadata (fun _ => some "content-b")
        { chainId := 1, address := "0xaa" } :=
  hasMetadata_existence_only ContractService.defaults _ _
    { chainId := 1, address := "0xaa" } (fun _ => rfl)

/-- C9: `match` is pure and deterministic — it is a total function of the
input string and the service's `dirname` alone (its type takes no store,
so it performs no I/O and returns `none` rather than raising for any
malformed input): any two service instances agreeing on `dirname` return
identical results on every input. -/
theorem matchPath_pure_deterministic (svc1 svc2 : ContractService)
    (h : svc1.dirname = svc2.dirname) (str : String) :
    svc1.matchPath str = svc2.matchPath str := by
  unfold ContractService.matchPath
  rw [h]

theorem matchPath_pure_deterministic_witness :
    ContractService.defaults.matchPath
        "contracts/1/0xaaaaaaaaaaaaaaaaaaaaaaaaaaaaaaaaaaaaaaaa" =
      ContractService.matchPath
        { dirname := "contracts"
        , configBasename := "other-config.json"
        , inputBasename := "other-input.json"
        , metadataBasename := "other-metadata.json" }
        "contracts/1/0xaaaaaaaaaaaaaaaaaaaaaaaaaaaaaaaaaaaaaaaa" :=
  matchPath_pure_deterministic ContractService.defaults
    { dirname := "contracts"
    , configBasename := "other-config.json"
    , inputBasename := "other-input.json"
    , metadataBasename := "other-metadata.json" }
    rfl "contracts/1/0xaaaaaaaaaaaaaaaaaaaaaaaaaaaaaaaaaaaaaaaa"

/-- C10 counterexample: on an input containing a carriage return after the
address segment, `match` succeeds but `dir ++ subpath` is a strict
prefix of the input, not the whole input. -/
theorem matchPath_dir_subpath_cex :
    (ContractService.defaults.matchPath
        "contracts/7/0xbbbbbbbbbbbbbbbbbbbbbbbbbbbbbbbbbbbbbbbb/p\rq").map
        (fun r => r.dir ++ r.subpath) =
      some "contracts/7/0xbbbbbbbbbbbbbbbbbbbbbbbbbbbbbbbbbbbbbbbb/p" ∧
    ("contracts/7/0xbbbbbbbbbbbbbbbbbbbbbbbbbbbbbbbbbbbbbbbb/p" : String) ≠
      "contracts/7/0xbbbbbbbbbbbbbbbbbbbbbbbbbbbbbbbbbbbbbbbb/p\rq" := by
  decide

/-- C10 (amended): on success, `original` equals the input string and
`dir ++ subpath` is a prefix of the input (`dir` being the matched
`<rootDirName>/<chainId>/<address>` head); `dir ++ subpath` equals the
whole input whenever the part after the address segment contains no
JavaScript line terminator. -/
theorem matchPath_original_dir_subpath (svc : ContractService) (str : String)
    (r : ContractFileMatch) (h : svc.matchPath str = some r) :
    r.original = str ∧
    (∃ t : List Char, str.data = (r.dir ++ r.subpath).data ++ t) ∧
    ((∀ c ∈ str.data.drop r.dir.data.length, isLineTerm c = false) →
      r.dir ++ r.subpath = str) := by
  obtain ⟨cid, h40, s3, hdec, -, -, -, -, -, horig, hdir, -, -, hsub⟩ :=
    matchPath_eq_some h
  have hstr : str.data = r.dir.data ++ s3 := by
    rw [hdir, hdec]
  have hdrop : str.data.drop r.dir.data.length = s3 := by
    rw [hstr]
    exact List.drop_left _ _
  refine ⟨horig, ?_, ?_⟩
  · refine ⟨s3.dropWhile (fun c => !(isLineTerm c)), ?_⟩
    rw [String.data_append, hsub, hstr, List.append_assoc]
    congr 1
    exact (List.takeWhile_append_dropWhile _ _).symm
  · intro hterm
    rw [hdrop] at hterm
    apply String.ext
    rw [String.data_append, hsub, hstr]
    congr 1
    exact List.takeWhile_eq_self_iff.mpr (fun x hx => by simp [hterm x hx])

def strPQ : String := "contracts/7/0xbbbbbbbbbbbbbbbbbbbbbbbbbbbbbbbbbbbbbbbb/p/q"

def cfmPQ : ContractFileMatch :=
  { original := strPQ
  , dir := "contracts/7/0xbbbbbbbbbbbbbbbbbbbbbbbbbbbbbbbbbbbbbbbb"
  , chainId := 7
  , address := "0xbbbbbbbbbbbbbbbbbbbbbbbbbbbbbbbbbbbbbbbb"
  , subpath := "/p/q" }

theorem matchPath_original_dir_subpath_witness :
    cfmPQ.original = strPQ ∧
    (∃ t : List Char, strPQ.data = (cfmPQ.dir ++ cfmPQ.subpath).data ++ t) ∧
    cfmPQ.dir ++ cfmPQ.subpath = strPQ :=
  ⟨(matchPath_original_dir_subpath ContractService.defaults strPQ cfmPQ
      (by decide)).1,
   (matchPath_original_dir_subpath ContractService.defaults strPQ cfmPQ
      (by decide)).2.1,
   (matchPath_original_dir_subpath ContractService.defaults strPQ cfmPQ
      (by decide)).2.2 (by decide)⟩
